import Mathlib

/-!
# Verification of the Staffing Optimization core (`optimizer_scipy.py`)

Shallow embedding of `optimize_staffing` from `src/optimizer_scipy.py`.

The Python function builds a fully separable linear program: decision
variables `x[t] >= 0`, one per hour, objective coefficients
`c[t] = hourly_wage[t] + overstaff_penalty`, inequality constraints
`-x[t] <= -required_staff[t]` (i.e. `x[t] >= required_staff[t]`), and
variable bounds `(0, max_staff)` when `max_staff` is given, `(0, None)`
otherwise.  It calls `scipy.optimize.linprog(method="highs")`, raises
`RuntimeError("Optimization failed: " + result.message)` when the solver
does not report success, and otherwise returns
`staff_plan = ceil(result.x)` (per component, cast to int) together with
`total_cost = sum(staff_plan * hourly_wage)`.

We model all numbers as rationals (`ℚ`), i.e. we model the LP backend as
an exact solver.  On this separable problem the exact optimum is closed
form, so the external solver can be embedded faithfully: per variable the
feasible interval is `[max(required_staff[t], 0), max_staff]` (or
unbounded above), the problem is infeasible when some interval is empty,
unbounded when some `c[t] < 0` with no upper bound, and otherwise the
optimal vertex is the upper bound when `c[t] < 0` and the lower bound of
the interval otherwise (also for `c[t] = 0`, where the solver returns the
lower-bound vertex of the presolved problem).  scipy's own input
validation (which raises `ValueError` before any solving happens, e.g. on
shape mismatches between `c` and `A_ub`) is part of the model, because
`optimize_staffing` performs no validation of its own.
-/

namespace Staffing

/-- Outcome of a call to `scipy.optimize.linprog` as observed by the
caller: either an exception escaping from scipy's input validation
(`ValueError`), or an `OptimizeResult` carrying a success flag, a
diagnostic message and the solution vector. -/
inductive LinprogOutcome where
  | raises (msg : String)
  | result (success : Bool) (message : String) (x : List ℚ)
deriving DecidableEq

/-- The two kinds of exceptions that can escape `optimize_staffing`:
a `ValueError` propagated from scipy's input validation, or the
`RuntimeError` that `optimize_staffing` raises itself on a non-success
solver status. -/
inductive OptError where
  | valueError (msg : String)
  | runtimeError (msg : String)
deriving DecidableEq

/-- Feasibility of the separable LP: each variable's feasible interval
`[max(r[t], 0), ub]` must be nonempty.  Without an upper bound the
problem is always feasible. -/
def lpFeasible (r : List ℚ) (ub : Option ℚ) : Bool :=
  match ub with
  | none => true
  | some m => r.all fun ri => decide (max ri 0 ≤ m)

/-- Unboundedness of the separable LP: a negative cost coefficient on a
variable with no upper bound drives the objective to `-∞`. -/
def lpUnbounded (c : List ℚ) (ub : Option ℚ) : Bool :=
  match ub with
  | none => c.any fun ci => decide (ci < 0)
  | some _ => false

/-- The exact optimal vertex of the separable LP (defined when it is
feasible and bounded): each variable sits at its upper bound when its
cost coefficient is negative, and at the lower bound `max(r[t], 0)` of
its feasible interval otherwise. -/
def lpSolution (c r : List ℚ) (ub : Option ℚ) : List ℚ :=
  match ub with
  | none => r.map fun ri => max ri 0
  | some m => List.zipWith (fun ci ri => if ci < 0 then m else max ri 0) c r

/-- Model of `scipy.optimize.linprog(c, A_ub=-I, b_ub=-r, bounds=(0,ub),
method="highs")` on the problem shape built by `optimize_staffing`.
scipy validates shapes first and raises `ValueError` when the length of
`c` does not match the number of columns of `A_ub` (which is
`len(required_staff)`); HiGHS then reports infeasibility or
unboundedness with `success = False`, and otherwise returns the exact
optimum of this separable problem. -/
def linprog (c r : List ℚ) (ub : Option ℚ) : LinprogOutcome :=
  if c.length ≠ r.length then
    .raises "Invalid input for linprog: c and A_ub must have compatible shapes"
  else if lpFeasible r ub = false then
    .result false "The problem is infeasible." []
  else if lpUnbounded c ub = true then
    .result false "The problem is unbounded." []
  else
    .result true "Optimization terminated successfully." (lpSolution c r ub)

/-- Embedding of `optimize_staffing` from `src/optimizer_scipy.py`:
cost coefficients `c = hourly_wage + overstaff_penalty`, solve the LP
with coverage constraints `x[t] >= required_staff[t]` and bounds
`(0, max_staff)`, raise `RuntimeError("Optimization failed: " + message)`
on a non-success status, otherwise round the solution up componentwise
(`np.ceil(result.x).astype(int)`) and bill the plan at the wage only
(`total_cost = np.sum(staff_plan * hourly_wage)`). -/
def optimize_staffing (required_staff hourly_wage : List ℚ)
    (max_staff : Option ℚ) (overstaff_penalty : ℚ) :
    Except OptError (List ℤ × ℚ) :=
  let c := hourly_wage.map fun w => w + overstaff_penalty
  match linprog c required_staff max_staff with
  | .raises msg => .error (.valueError msg)
  | .result false msg _ =>
      .error (.runtimeError ("Optimization failed: " ++ msg))
  | .result true _ x =>
      let staff_plan := x.map fun xi => ⌈xi⌉
      let total_cost :=
        (List.zipWith (fun (p : ℤ) (w : ℚ) => (p : ℚ) * w) staff_plan hourly_wage).sum
      .ok (staff_plan, total_cost)

/-! ## Basic facts about the linprog model -/

theorem linprog_raises {c r : List ℚ} {ub : Option ℚ} (h : c.length ≠ r.length) :
    linprog c r ub =
      .raises "Invalid input for linprog: c and A_ub must have compatible shapes" := by
  rw [linprog, if_pos h]

theorem linprog_infeasible {c r : List ℚ} {ub : Option ℚ} (hlen : c.length = r.length)
    (hfeas : lpFeasible r ub = false) :
    linprog c r ub = .result false "The problem is infeasible." [] := by
  rw [linprog, if_neg (by simpa using hlen), if_pos hfeas]

theorem linprog_unbounded {c r : List ℚ} {ub : Option ℚ} (hlen : c.length = r.length)
    (hfeas : lpFeasible r ub = true) (hbdd : lpUnbounded c ub = true) :
    linprog c r ub = .result false "The problem is unbounded." [] := by
  rw [linprog, if_neg (by simpa using hlen), if_neg (by simp [hfeas]), if_pos hbdd]

theorem linprog_success {c r : List ℚ} {ub : Option ℚ} (hlen : c.length = r.length)
    (hfeas : lpFeasible r ub = true) (hbdd : lpUnbounded c ub = false) :
    linprog c r ub =
      .result true "Optimization terminated successfully." (lpSolution c r ub) := by
  rw [linprog, if_neg (by simpa using hlen), if_neg (by simp [hfeas]),
    if_neg (by simp [hbdd])]

theorem linprog_result_true {c r : List ℚ} {ub : Option ℚ} {msg : String} {x : List ℚ}
    (h : linprog c r ub = .result true msg x) :
    c.length = r.length ∧ lpFeasible r ub = true ∧ lpUnbounded c ub = false ∧
      x = lpSolution c r ub := by
  rw [linprog] at h
  split_ifs at h with h1 h2 h3
  all_goals cases h
  exact ⟨not_not.mp h1, by simpa using h2, by simpa using h3, rfl⟩

/-- Characterization of a successful run of `optimize_staffing`: the wage
and requirement sequences have equal length, the LP is feasible and
bounded, the plan is the componentwise ceiling of the exact LP solution,
and the cost is the plan billed at the wage. -/
theorem optimize_staffing_ok_iff {r w : List ℚ} {m : Option ℚ} {p : ℚ}
    {plan : List ℤ} {cost : ℚ} :
    optimize_staffing r w m p = .ok (plan, cost) ↔
      w.length = r.length ∧ lpFeasible r m = true ∧
      lpUnbounded (w.map fun wi => wi + p) m = false ∧
      plan = (lpSolution (w.map fun wi => wi + p) r m).map (fun xi => ⌈xi⌉) ∧
      cost = (List.zipWith (fun (pi : ℤ) (wi : ℚ) => (pi : ℚ) * wi) plan w).sum := by
  constructor
  · intro h
    rw [optimize_staffing] at h
    cases hl : linprog (w.map fun wi => wi + p) r m with
    | raises msg => rw [hl] at h; exact absurd h (by simp)
    | result success msg x =>
      cases success with
      | false => rw [hl] at h; exact absurd h (by simp)
      | true =>
        rw [hl] at h
        simp only [Except.ok.injEq, Prod.mk.injEq] at h
        obtain ⟨hplan, hcost⟩ := h
        obtain ⟨hlen, hfeas, hbdd, hx⟩ := linprog_result_true hl
        subst hx
        refine ⟨by simpa using hlen, hfeas, hbdd, hplan.symm, ?_⟩
        rw [← hcost, hplan]
  · rintro ⟨hlen, hfeas, hbdd, hplan, hcost⟩
    rw [optimize_staffing, linprog_success (by simpa using hlen) hfeas hbdd]
    rw [hplan, hcost, hplan]

/-! ## Structure of the exact LP solution -/

theorem lpFeasible_le {r : List ℚ} {m : ℚ} (hfeas : lpFeasible r (some m) = true)
    {ri : ℚ} (hri : ri ∈ r) : max ri 0 ≤ m := by
  simp only [lpFeasible, List.all_eq_true] at hfeas
  simpa using hfeas ri hri

theorem lpUnbounded_of_nonneg {c : List ℚ} {ub : Option ℚ}
    (hc : ∀ ci ∈ c, 0 ≤ ci) : lpUnbounded c ub = false := by
  cases ub with
  | none =>
    simp only [lpUnbounded, List.any_eq_false, decide_eq_true_eq]
    intro ci hci
    exact not_lt.mpr (hc ci hci)
  | some m => rfl

theorem lpSolution_length {c r : List ℚ} {ub : Option ℚ}
    (hlen : c.length = r.length) : (lpSolution c r ub).length = r.length := by
  cases ub with
  | none => simp [lpSolution]
  | some m => simp [lpSolution, List.length_zipWith, hlen]

theorem zipWith_sol_of_nonneg (m : ℚ) :
    ∀ (c r : List ℚ), (∀ ci ∈ c, 0 ≤ ci) → c.length = r.length →
      List.zipWith (fun ci ri => if ci < 0 then m else max ri 0) c r =
        r.map fun ri => max ri 0
  | [], [], _, _ => rfl
  | [], _ :: _, _, h => by simp at h
  | _ :: _, [], _, h => by simp at h
  | ci :: c, ri :: r, hc, h => by
    simp only [List.zipWith_cons_cons, List.map_cons]
    rw [if_neg (not_lt.mpr (hc ci (List.mem_cons_self _ _))),
      zipWith_sol_of_nonneg m c r (fun x hx => hc x (List.mem_cons_of_mem _ hx))
        (by simpa using h)]

/-- With non-negative cost coefficients every variable of the separable LP
sits at the lower bound of its feasible interval. -/
theorem lpSolution_of_nonneg {c r : List ℚ} {ub : Option ℚ}
    (hc : ∀ ci ∈ c, 0 ≤ ci) (hlen : c.length = r.length) :
    lpSolution c r ub = r.map fun ri => max ri 0 := by
  cases ub with
  | none => rfl
  | some m => exact zipWith_sol_of_nonneg m c r hc hlen

theorem lpSolution_lower {c r : List ℚ} {ub : Option ℚ}
    (hfeas : lpFeasible r ub = true)
    {t : ℕ} (ht : t < r.length) (hts : t < (lpSolution c r ub).length) :
    max r[t] 0 ≤ (lpSolution c r ub)[t] := by
  cases ub with
  | none =>
    show max r[t] 0 ≤ (r.map fun ri => max ri 0)[t]
    rw [List.getElem_map]
  | some m =>
    show max r[t] 0 ≤ (List.zipWith (fun ci ri => if ci < 0 then m else max ri 0) c r)[t]
    rw [List.getElem_zipWith]
    split
    · exact lpFeasible_le hfeas (List.getElem_mem ht)
    · exact le_rfl

/-- Closed form of `optimize_staffing` when all cost coefficients are
non-negative (non-negative wages and penalty): shape mismatch raises
scipy's `ValueError`, an upper bound below some requirement gives the
infeasibility `RuntimeError`, and otherwise the plan is the ceiling of
the lower-bound vertex `max(required_staff[t], 0)`.  The right-hand side
does not depend on `overstaff_penalty`. -/
theorem optimize_staffing_nonneg_eq (r w : List ℚ) (m : Option ℚ) (p : ℚ)
    (hw : ∀ wi ∈ w, 0 ≤ wi) (hp : 0 ≤ p) :
    optimize_staffing r w m p =
      if w.length = r.length then
        if lpFeasible r m = true then
          .ok ((r.map fun ri => max ri 0).map fun xi => ⌈xi⌉,
            (List.zipWith (fun (pi : ℤ) (wi : ℚ) => (pi : ℚ) * wi)
              ((r.map fun ri => max ri 0).map fun xi => ⌈xi⌉) w).sum)
        else .error (.runtimeError "Optimization failed: The problem is infeasible.")
      else
        .error
          (.valueError "Invalid input for linprog: c and A_ub must have compatible shapes") := by
  have hc : ∀ ci ∈ w.map fun wi => wi + p, 0 ≤ ci := by
    intro ci hci
    rw [List.mem_map] at hci
    obtain ⟨wi, hwi, rfl⟩ := hci
    exact add_nonneg (hw wi hwi) hp
  by_cases hlen : w.length = r.length
  · rw [if_pos hlen]
    by_cases hfeas : lpFeasible r m = true
    · rw [if_pos hfeas, optimize_staffing,
        linprog_success (by simpa using hlen) hfeas (lpUnbounded_of_nonneg hc),
        lpSolution_of_nonneg hc (by simpa using hlen)]
    · rw [if_neg hfeas, optimize_staffing,
        linprog_infeasible (by simpa using hlen) (by simpa using hfeas)]
      rfl
  · rw [if_neg hlen, optimize_staffing, linprog_raises (by simpa using hlen)]

/-! ## Claims -/

/-- C1: Coverage invariant — for every input on which `optimize_staffing`
returns successfully, the returned plan has one entry per hour and
satisfies `required_staff[t] ≤ plan[t]` for every index `t`. -/
theorem coverage_invariant {r w : List ℚ} {m : Option ℚ} {p : ℚ}
    {plan : List ℤ} {cost : ℚ}
    (h : optimize_staffing r w m p = .ok (plan, cost)) :
    plan.length = r.length ∧
      ∀ t (ht : t < r.length) (ht2 : t < plan.length), r[t] ≤ (plan[t] : ℚ) := by
  obtain ⟨hlen, hfeas, hbdd, hplan, -⟩ := optimize_staffing_ok_iff.mp h
  have hslen : (lpSolution (w.map fun wi => wi + p) r m).length = r.length :=
    lpSolution_length (by simpa using hlen)
  subst hplan
  refine ⟨by simpa using hslen, ?_⟩
  intro t ht ht2
  have hts : t < (lpSolution (w.map fun wi => wi + p) r m).length := by
    rw [hslen]; exact ht
  rw [List.getElem_map]
  calc r[t] ≤ max r[t] 0 := le_max_left _ _
    _ ≤ (lpSolution (w.map fun wi => wi + p) r m)[t] := lpSolution_lower hfeas ht hts
    _ ≤ ((⌈(lpSolution (w.map fun wi => wi + p) r m)[t]⌉ : ℤ) : ℚ) := Int.le_ceil _

theorem coverage_invariant_witness :
    ([3, 5, 2] : List ℤ).length = ([3, 5, 2] : List ℚ).length ∧
      ∀ t (ht : t < ([3, 5, 2] : List ℚ).length) (ht2 : t < ([3, 5, 2] : List ℤ).length),
        ([3, 5, 2] : List ℚ)[t] ≤ (([3, 5, 2] : List ℤ)[t] : ℚ) :=
  @coverage_invariant [3, 5, 2] [10, 10, 10] none 0 [3, 5, 2] 100
    (by with_unfolding_all rfl)

/-- C2: Cost consistency — on every successful return the reported
`total_cost` is exactly the plan billed at the hourly wage,
`∑ t, plan[t] * hourly_wage[t]`, for every value of the penalty: the
penalty-augmented coefficient `hourly_wage + overstaff_penalty` enters
only the LP objective, never the reported cost. -/
theorem cost_consistency {r w : List ℚ} {m : Option ℚ} {p : ℚ}
    {plan : List ℤ} {cost : ℚ}
    (h : optimize_staffing r w m p = .ok (plan, cost)) :
    cost = (List.zipWith (fun (pi : ℤ) (wi : ℚ) => (pi : ℚ) * wi) plan w).sum :=
  (optimize_staffing_ok_iff.mp h).2.2.2.2

theorem cost_consistency_witness :
    (160 : ℚ) =
      (List.zipWith (fun (pi : ℤ) (wi : ℚ) => (pi : ℚ) * wi)
        [3, 5, 2] [10, 20, 15]).sum :=
  @cost_consistency [3, 5, 2] [10, 20, 15] none 5 [3, 5, 2] 160
    (by with_unfolding_all rfl)

/-- C3: No-penalty optimality — for every valid input (equal lengths,
at least one hour, integer-valued non-negative requirements, non-negative
wages) with `overstaff_penalty = 0` and no `max_staff`, the solve
succeeds and the plan equals the requirement at every hour. -/
theorem no_penalty_optimality {r w : List ℚ}
    (hlen : w.length = r.length) (hn : 1 ≤ r.length)
    (hint : ∀ ri ∈ r, ∃ k : ℤ, ri = (k : ℚ)) (hr0 : ∀ ri ∈ r, 0 ≤ ri)
    (hw : ∀ wi ∈ w, 0 ≤ wi) :
    ∃ plan cost, optimize_staffing r w none 0 = .ok (plan, cost) ∧
      plan.length = r.length ∧
      ∀ t (ht : t < r.length) (ht2 : t < plan.length), (plan[t] : ℚ) = r[t] := by
  rw [optimize_staffing_nonneg_eq r w none 0 hw le_rfl, if_pos hlen,
    if_pos (show lpFeasible r none = true from rfl)]
  refine ⟨_, _, rfl, by simp, ?_⟩
  intro t ht ht2
  rw [List.getElem_map, List.getElem_map]
  obtain ⟨k, hk⟩ := hint r[t] (List.getElem_mem ht)
  rw [max_eq_left (hr0 r[t] (List.getElem_mem ht)), hk, Int.ceil_intCast]

theorem no_penalty_optimality_witness :
    ∃ plan cost, optimize_staffing [3, 5, 2] [10, 20, 15] none 0 = .ok (plan, cost) ∧
      plan.length = ([3, 5, 2] : List ℚ).length ∧
      ∀ t (ht : t < ([3, 5, 2] : List ℚ).length) (ht2 : t < plan.length),
        (plan[t] : ℚ) = ([3, 5, 2] : List ℚ)[t] :=
  no_penalty_optimality rfl (by norm_num)
    (by
      intro ri hri
      fin_cases hri
      · exact ⟨3, by norm_num⟩
      · exact ⟨5, by norm_num⟩
      · exact ⟨2, by norm_num⟩)
    (by intro ri hri; fin_cases hri <;> norm_num)
    (by intro wi hwi; fin_cases hwi <;> norm_num)

/-- C4: Infeasibility detection — when `max_staff` is provided strictly
below some hour's requirement, `optimize_staffing` does not return a
plan: it fails with the `RuntimeError` carrying the solver's
infeasibility diagnostic. -/
theorem infeasibility_detected {r w : List ℚ} {M p : ℚ}
    (hlen : w.length = r.length) (t : ℕ) (ht : t < r.length) (hM : M < r[t]) :
    optimize_staffing r w (some M) p =
      .error (.runtimeError "Optimization failed: The problem is infeasible.") := by
  have hviol : ¬ max r[t] 0 ≤ M := not_le.mpr (lt_of_lt_of_le hM (le_max_left _ _))
  have hfeas : lpFeasible r (some M) = false := by
    rcases Bool.eq_false_or_eq_true (lpFeasible r (some M)) with hf | hf
    · exact absurd (lpFeasible_le hf (List.getElem_mem ht)) hviol
    · exact hf
  rw [optimize_staffing, linprog_infeasible (by simpa using hlen) hfeas]
  rfl

theorem infeasibility_detected_witness :
    optimize_staffing [4] [10] (some 2) 0 =
      .error (.runtimeError "Optimization failed: The problem is infeasible.") :=
  @infeasibility_detected [4] [10] 2 0 rfl 0 (by norm_num) (by norm_num)

/-- C5 (counterexample): the claim says malformed inputs — in particular
negative values — make `optimize_staffing` fail with an `InvalidInput`
error before the LP solver is invoked.  The code performs no validation:
a negative requirement is passed straight to the LP, which solves it
successfully (the lower bound 0 clamps the variable), so no error of any
kind is raised. -/
theorem no_validation_counterexample :
    optimize_staffing [-1] [10] none 0 = .ok ([0], 0) := by
  with_unfolding_all rfl

/-- C5 (amended): `optimize_staffing` performs no input validation of its
own; malformed inputs reach the LP engine.  Mismatched sequence lengths
surface as scipy's own `ValueError` raised inside `linprog`, not as a
distinct `InvalidInput` error raised before invoking the solver, and
negative values are accepted and solved successfully. -/
theorem invalid_shape_solver_error {r w : List ℚ} {m : Option ℚ} {p : ℚ}
    (hlen : w.length ≠ r.length) :
    optimize_staffing r w m p =
      .error
        (.valueError "Invalid input for linprog: c and A_ub must have compatible shapes") := by
  rw [optimize_staffing, linprog_raises (by simpa using hlen)]

theorem invalid_shape_solver_error_witness :
    optimize_staffing [1, 2] [10] none 0 =
      .error
        (.valueError "Invalid input for linprog: c and A_ub must have compatible shapes") :=
  @invalid_shape_solver_error [1, 2] [10] none 0 (by norm_num)

/-- C6: Integrality — on every successful return the plan is a list of
integers (`List ℤ`, the image of `np.ceil(..).astype(int)`) and every
entry is non-negative. -/
theorem plan_integrality {r w : List ℚ} {m : Option ℚ} {p : ℚ}
    {plan : List ℤ} {cost : ℚ}
    (h : optimize_staffing r w m p = .ok (plan, cost)) :
    ∀ t (ht : t < plan.length), 0 ≤ plan[t] := by
  obtain ⟨hlen, hfeas, hbdd, hplan, -⟩ := optimize_staffing_ok_iff.mp h
  subst hplan
  intro t ht
  have hts : t < (lpSolution (w.map fun wi => wi + p) r m).length := by
    simpa using ht
  have ht' : t < r.length := by
    have := @lpSolution_length (w.map fun wi => wi + p) r m (by simpa using hlen)
    omega
  rw [List.getElem_map]
  refine Int.ceil_nonneg ?_
  calc (0 : ℚ) ≤ max r[t] 0 := le_max_right _ _
    _ ≤ _ := lpSolution_lower hfeas ht' hts

theorem plan_integrality_witness :
    ([3, 5, 2] : List ℤ).length = 3 ∧
      ∀ t (ht : t < ([3, 5, 2] : List ℤ).length), 0 ≤ ([3, 5, 2] : List ℤ)[t] :=
  ⟨rfl,
    @plan_integrality [3, 5, 2] [10, 10, 10] none 0 [3, 5, 2] 100
      (by with_unfolding_all rfl)⟩

/-- C7: Unconditional ceiling rounding — whenever the LP solver returns
success with solution `x`, `optimize_staffing` returns exactly the
componentwise ceiling of `x` (never rounding down), with no subsequent
clamp to `max_staff`: the returned plan is `map ceil x` even when a
ceiling exceeds the configured bound. -/
theorem unconditional_ceiling {r w x : List ℚ} {m : Option ℚ} {p : ℚ} {msg : String}
    (h : linprog (w.map fun wi => wi + p) r m = .result true msg x) :
    optimize_staffing r w m p =
      .ok (x.map fun xi => ⌈xi⌉,
        (List.zipWith (fun (pi : ℤ) (wi : ℚ) => (pi : ℚ) * wi)
          (x.map fun xi => ⌈xi⌉) w).sum) := by
  rw [optimize_staffing, h]

theorem unconditional_ceiling_witness :
    optimize_staffing [mkRat 3 2] [1] (some (mkRat 8 5)) 0 =
      .ok (([mkRat 3 2].map fun xi => ⌈xi⌉),
        (List.zipWith (fun (pi : ℤ) (wi : ℚ) => (pi : ℚ) * wi)
          ([mkRat 3 2].map fun xi => ⌈xi⌉) [1]).sum) :=
  @unconditional_ceiling [mkRat 3 2] [1] [mkRat 3 2] (some (mkRat 8 5)) 0
    "Optimization terminated successfully." (by with_unfolding_all rfl)

-- The witness input exhibits the nominal capacity overflow: the LP
-- solution 3/2 sits fractionally under the bound 8/5, its ceiling is 2,
-- and the returned plan keeps the 2 — above the configured bound.
example :
    optimize_staffing [mkRat 3 2] [1] (some (mkRat 8 5)) 0 = .ok ([2], 2) ∧
      ¬ ((2 : ℚ) ≤ mkRat 8 5) :=
  ⟨by with_unfolding_all rfl, by decide⟩

/-- C8: Determinism and purity — `optimize_staffing` is a pure function
of its four arguments: two invocations on identical inputs return
identical results, and a failing configuration fails with the identical
error on every invocation. -/
theorem pure_deterministic (r₁ w₁ r₂ w₂ : List ℚ) (m₁ m₂ : Option ℚ) (p₁ p₂ : ℚ)
    (hr : r₁ = r₂) (hw : w₁ = w₂) (hm : m₁ = m₂) (hp : p₁ = p₂) :
    optimize_staffing r₁ w₁ m₁ p₁ = optimize_staffing r₂ w₂ m₂ p₂ ∧
      ∀ e, optimize_staffing r₁ w₁ m₁ p₁ = .error e →
        optimize_staffing r₂ w₂ m₂ p₂ = .error e := by
  subst hr; subst hw; subst hm; subst hp
  exact ⟨rfl, fun e he => he⟩

theorem pure_deterministic_witness :
    optimize_staffing [4] [10] (some 2) 0 = optimize_staffing [4] [10] (some 2) 0 ∧
      ∀ e, optimize_staffing [4] [10] (some 2) 0 = .error e →
        optimize_staffing [4] [10] (some 2) 0 = .error e :=
  pure_deterministic [4] [10] [4] [10] (some 2) (some 2) 0 0 rfl rfl rfl rfl

/-- C9: Penalty irrelevance — for non-negative wages and any non-negative
penalty `p`, the whole result of `optimize_staffing` (plan, cost, and
success or failure) is identical to the result with penalty `0`: the
penalty shifts every cost coefficient uniformly and never changes which
vertex is optimal, and the reported cost is billed at the wage only. -/
theorem penalty_invariance {r w : List ℚ} {m : Option ℚ} {p : ℚ}
    (hw : ∀ wi ∈ w, 0 ≤ wi) (hp : 0 ≤ p) :
    optimize_staffing r w m p = optimize_staffing r w m 0 := by
  rw [optimize_staffing_nonneg_eq r w m p hw hp,
    optimize_staffing_nonneg_eq r w m 0 hw le_rfl]

theorem penalty_invariance_witness :
    optimize_staffing [3, 5, 2] [10, 10, 10] none 5 =
      optimize_staffing [3, 5, 2] [10, 10, 10] none 0 :=
  @penalty_invariance [3, 5, 2] [10, 10, 10] none 5
    (by intro wi hwi; fin_cases hwi <;> norm_num) (by norm_num)

/-- C10: Capacity preserved after rounding — for valid inputs with
integer-valued requirements and a configured `max_staff` at or above
every requirement, the solve succeeds and the rounded plan stays within
the capacity bound: the exact LP optimum is integral at the requirement,
so the ceiling is a no-op and never pushes the plan above `max_staff`. -/
theorem capacity_after_rounding {r w : List ℚ} {M p : ℚ}
    (hlen : w.length = r.length)
    (hint : ∀ ri ∈ r, ∃ k : ℤ, ri = (k : ℚ)) (hr0 : ∀ ri ∈ r, 0 ≤ ri)
    (hw : ∀ wi ∈ w, 0 ≤ wi) (hp : 0 ≤ p)
    (hM : ∀ ri ∈ r, ri ≤ M) :
    ∃ plan cost, optimize_staffing r w (some M) p = .ok (plan, cost) ∧
      plan.length = r.length ∧
      ∀ t (ht : t < plan.length), (plan[t] : ℚ) ≤ M := by
  have hfeas : lpFeasible r (some M) = true := by
    simp only [lpFeasible, List.all_eq_true, decide_eq_true_eq]
    intro ri hri
    rw [max_eq_left (hr0 ri hri)]
    exact hM ri hri
  rw [optimize_staffing_nonneg_eq r w (some M) p hw hp, if_pos hlen, if_pos hfeas]
  refine ⟨_, _, rfl, by simp, ?_⟩
  intro t ht
  have ht' : t < r.length := by simpa using ht
  rw [List.getElem_map, List.getElem_map]
  obtain ⟨k, hk⟩ := hint r[t] (List.getElem_mem ht')
  rw [max_eq_left (hr0 r[t] (List.getElem_mem ht')), hk, Int.ceil_intCast, ← hk]
  exact hM r[t] (List.getElem_mem ht')

theorem capacity_after_rounding_witness :
    ∃ plan cost, optimize_staffing [3, 5, 2] [10, 10, 10] (some 6) 0 = .ok (plan, cost) ∧
      plan.length = ([3, 5, 2] : List ℚ).length ∧
      ∀ t (ht : t < plan.length), (plan[t] : ℚ) ≤ 6 :=
  capacity_after_rounding rfl
    (by
      intro ri hri
      fin_cases hri
      · exact ⟨3, by norm_num⟩
      · exact ⟨5, by norm_num⟩
      · exact ⟨2, by norm_num⟩)
    (by intro ri hri; fin_cases hri <;> norm_num)
    (by intro wi hwi; fin_cases hwi <;> norm_num)
    (by norm_num)
    (by intro ri hri; fin_cases hri <;> norm_num)

-- Scenario sanity checks from the spec (§8).
example : optimize_staffing [3, 5, 2] [10, 10, 10] none 0 =
    .ok ([3, 5, 2], 100) := by with_unfolding_all rfl

example : optimize_staffing [3, 5, 2] [10, 20, 15] none 0 =
    .ok ([3, 5, 2], 160) := by with_unfolding_all rfl

example : optimize_staffing [4] [10] (some 2) 0 =
    .error (.runtimeError "Optimization failed: The problem is infeasible.") := by
  rfl

example : optimize_staffing [0] [10] none 0 = .ok ([0], 0) := by
  with_unfolding_all rfl

end Staffing
